import Mathlib

/-!
Verification of the inference core of the leela-chess repository.

The development shallowly embeds the relevant parts of
`src/lc0/src/neural/network_old.cpp` and `src/src/UCTSearch.h`.
Dense float buffers are modelled as a size together with a total
function from flat indices into a linear ordered field (`ℚ` for exact
claims, `ℝ` where the code applies `exp`/`tanh`); the C++ loops that
fill a buffer are modelled by the function computing the value written
at each flat index, using the inverse of the source's mixed-radix
index arithmetic.  Machine floats are idealised as exact field
elements except where a claim is specifically about float special
values (NaN in the self-check comparator, modelled by `Option ℚ`).
-/

set_option maxHeartbeats 1000000
set_option maxRecDepth 8000

/-- A dense buffer of scalars: the model of `std::vector<float>`.
`size` is the allocated length; `data` gives the element at each flat
index (values at indices `≥ size` are irrelevant and never read by the
theorems below). -/
structure Buf (α : Type*) where
  size : ℕ
  data : ℕ → α

variable {α : Type*} [LinearOrderedField α]

/- ### Mixed-radix index decomposition helpers -/

theorem mixed_mod (q s r : ℕ) (hr : r < s) : (q * s + r) % s = r := by
  rw [mul_comm, Nat.mul_add_mod]
  exact Nat.mod_eq_of_lt hr

theorem mixed_div (q s r : ℕ) (hr : r < s) : (q * s + r) / s = q := by
  have hs : 0 < s := lt_of_le_of_lt (Nat.zero_le r) hr
  rw [mul_comm, Nat.mul_add_div hs, Nat.div_eq_of_lt hr, add_zero]

/- ### Winograd F(2x2, 3x3) engine, from `network_old.cpp` -/

/-- The 4x3 matrix `G` of the Winograd filter transform, stored flat
exactly as in `winograd_transform_f`:
`{1, 0, 0, 0.5, 0.5, 0.5, 0.5, -0.5, 0.5, 0, 0, 1}`. -/
def Gf : ℕ → α
  | 0 => 1 | 1 => 0 | 2 => 0
  | 3 => 1/2 | 4 => 1/2 | 5 => 1/2
  | 6 => 1/2 | 7 => -(1/2) | 8 => 1/2
  | 9 => 0 | 10 => 0 | 11 => 1
  | _ => 0

/-- The 3x3 filter for output `o`, channel `c` inside the flat filter
tensor `f` (layout `f[o*channels*9 + c*9 + i*3 + j]`, from the reads in
`winograd_transform_f`). -/
def filt (f : ℕ → α) (channels o c : ℕ) : ℕ → ℕ → α :=
  fun i j => f (o * (channels * 9) + c * 9 + i * 3 + j)

/-- The scalar computed by the two nested loops of
`winograd_transform_f` for one filter `g` and tile coordinates
`(xi, nu)`: `temp = G·g` followed by `U[xi][nu] = Σ_k temp[xi][k]·G[nu][k]`,
i.e. entry `(xi, nu)` of `G·g·Gᵀ`. -/
def wtfEntry (g : ℕ → ℕ → α) (xi nu : ℕ) : α :=
  ∑ k in Finset.range 3,
    (∑ k2 in Finset.range 3, Gf (xi * 3 + k2) * g k2 k) * Gf (nu * 3 + k)

/-- `NetworkOld::winograd_transform_f` (network_old.cpp:131).  The
source allocates `U` of size `WINOGRAD_TILE * outputs * channels`
(`WINOGRAD_TILE = 16`) and writes, for every `o < outputs`,
`c < channels`, `xi, nu < 4`, the value of `G·g·Gᵀ` at flat index
`xi*(4*outputs*channels) + nu*(outputs*channels) + c*outputs + o`.
The model recovers `(o, c, nu, xi)` from the flat index by the inverse
mixed-radix decomposition of that write index. -/
def winograd_transform_f (f : Buf α) (outputs channels : ℕ) : Buf α :=
  ⟨16 * outputs * channels, fun idx =>
    let o := idx % outputs
    let c := (idx / outputs) % channels
    let nu := (idx / (outputs * channels)) % 4
    let xi := idx / (4 * outputs * channels)
    wtfEntry (filt f.data channels o c) xi nu⟩

/-- `NetworkOld::zeropad_U` (network_old.cpp:174).  The source zero
fills `Upad` of size `16 * outputs_pad * channels_pad` and copies
`U[xi,nu,c,o]` to `Upad[xi,nu,c,o]` (layouts with `outputs`/`channels`
resp. `outputs_pad`/`channels_pad`) for `o < outputs`, `c < channels`,
`xi, nu < 4`.  The model recovers the coordinates from the flat padded
index; entries whose coordinates are outside the copied ranges keep
the zero fill. -/
def zeropad_U (U : Buf α) (outputs channels outputs_pad channels_pad : ℕ) : Buf α :=
  ⟨16 * outputs_pad * channels_pad, fun idx =>
    let o := idx % outputs_pad
    let c := (idx / outputs_pad) % channels_pad
    let nu := (idx / (outputs_pad * channels_pad)) % 4
    let xi := idx / (4 * outputs_pad * channels_pad)
    if o < outputs ∧ c < channels ∧ xi < 4 then
      U.data (xi * (4 * outputs * channels) + nu * (outputs * channels)
              + c * outputs + o)
    else 0⟩

/-- The input tile cached by `winograd_transform_in`
(network_old.cpp:535): entry `(i, j)` of the 4x4 tile with origin
`(yin, xin) = (2*block_y - 1, 2*block_x - 1)` of channel `ch` of an
8x8 feature map, with zero padding outside the board.  The origin uses
`int` arithmetic in the source, hence `ℤ` here; the guard order matches
the source's `(yin+i) >= 0 && (xin+j) >= 0 && (yin+i) < H && (xin+j) < W`. -/
def inTile (inp : ℕ → α) (ch b_y b_x : ℕ) (i j : ℕ) : α :=
  let yin : ℤ := 2 * (b_y : ℤ) - 1
  let xin : ℤ := 2 * (b_x : ℤ) - 1
  if 0 ≤ yin + i ∧ 0 ≤ xin + j ∧ yin + i < 8 ∧ xin + j < 8 then
    inp (ch * 64 + (yin + i).toNat * 8 + (xin + j).toNat)
  else 0

/-- The sixteen `T1` assignments of `winograd_transform_in`
(network_old.cpp:556): left multiplication of the tile by `Bᵀ`. -/
def wT1 (x : ℕ → ℕ → α) : ℕ → ℕ → α := fun i j =>
  match i with
  | 0 => x 0 j - x 2 j
  | 1 => x 1 j + x 2 j
  | 2 => x 2 j - x 1 j
  | 3 => x 1 j - x 3 j
  | _ => 0

/-- The sixteen `T2` assignments of `winograd_transform_in`
(network_old.cpp:573): right multiplication of `T1` by `B`, yielding
`V = Bᵀ·d·B` for the tile `d`. -/
def wT2 (x : ℕ → ℕ → α) : ℕ → ℕ → α := fun i j =>
  match j with
  | 0 => wT1 x i 0 - wT1 x i 2
  | 1 => wT1 x i 1 + wT1 x i 2
  | 2 => wT1 x i 2 - wT1 x i 1
  | 3 => wT1 x i 1 - wT1 x i 3
  | _ => 0

/-- `NetworkOld::winograd_transform_in` (network_old.cpp:514).  The
source writes, for every channel `ch < C`, block `(block_y, block_x)`
with `block_y, block_x < 4` and tile coordinates `(i, j)`, the value
`T2[i][j]` at flat index `(i*4 + j)*C*P + ch*P + block_y*4 + block_x`
with `P = 16`.  The model recovers `(block, ch, i*4+j)` from the flat
index. -/
def winograd_transform_in (inp : Buf α) (C : ℕ) : Buf α :=
  ⟨16 * C * 16, fun idx =>
    let p := idx % 16
    let ch := (idx / 16) % C
    let t := idx / (16 * C)
    wT2 (inTile inp.data ch (p / 4) (p % 4)) (t / 4) (t % 4)⟩

/-- `NetworkOld::winograd_sgemm` (network_old.cpp:600).  For each of the
16 tile coordinates `b` the source calls
`cblas_sgemm(RowMajor, Trans, NoTrans, K, P, C, 1, U+b*K*C, K, V+b*C*P, P, 0, M+b*K*P, P)`
with `P = 16`, whose documented semantics (spec section 4.1: row-major
`C ← α·op(A)·op(B) + β·C`; the BLAS itself is an external collaborator)
give `M[b*K*P + k*P + p] = Σ_{c<C} U[b*K*C + c*K + k] * V[b*C*P + c*P + p]`.
The model recovers `(b, k, p)` from the flat output index. -/
def winograd_sgemm (U V : Buf α) (C K : ℕ) : Buf α :=
  ⟨16 * K * 16, fun idx =>
    let p := idx % 16
    let k := (idx / 16) % K
    let b := idx / (16 * K)
    ∑ c in Finset.range C,
      U.data (b * (K * C) + c * K + k) * V.data (b * (C * 16) + c * 16 + p)⟩

/-- `NetworkOld::winograd_transform_out` (network_old.cpp:621).  For
each output channel `k < K` and block `(block_y, block_x)` the source
gathers `temp_m[xi][nu] = M[xi*(4*K*P) + nu*(K*P) + k*P + b]`
(`b = block_y*4 + block_x`, `P = 16`) and writes the four pixels
`o11, o12, o21, o22` of `Aᵀ·temp_m·A` at
`Y[k*64 + (2*block_y + dy)*8 + (2*block_x + dx)]`; on an 8x8 board all
four bounds checks always pass.  The model recovers
`(k, y, x)` from the flat output index and selects the pixel formula
by the parities `(y % 2, x % 2)`. -/
def winograd_transform_out (M : Buf α) (K : ℕ) : Buf α :=
  ⟨K * 64, fun idx =>
    let k := idx / 64
    let y := (idx % 64) / 8
    let x := idx % 8
    let b := (y / 2) * 4 + x / 2
    let tm : ℕ → ℕ → α := fun xi nu =>
      M.data (xi * (4 * K * 16) + nu * (K * 16) + k * 16 + b)
    match y % 2, x % 2 with
    | 0, 0 => tm 0 0 + tm 0 1 + tm 0 2 +
              tm 1 0 + tm 1 1 + tm 1 2 +
              tm 2 0 + tm 2 1 + tm 2 2
    | 0, _ => tm 0 1 - tm 0 2 - tm 0 3 +
              tm 1 1 - tm 1 2 - tm 1 3 +
              tm 2 1 - tm 2 2 - tm 2 3
    | _, 0 => tm 1 0 + tm 1 1 + tm 1 2 -
              tm 2 0 - tm 2 1 - tm 2 2 -
              tm 3 0 - tm 3 1 - tm 3 2
    | _, _ => tm 1 1 - tm 1 2 - tm 1 3 -
              tm 2 1 + tm 2 2 + tm 2 3 -
              tm 3 1 + tm 3 2 + tm 3 3⟩

/-- `NetworkOld::winograd_convolve3` (network_old.cpp:686): recovers
the channel count from `U.size() / (outputs * filter_len)` with
`filter_len = WINOGRAD_ALPHA * WINOGRAD_ALPHA = 16` and chains the
input transform, the batched GEMM and the output transform.  `V` and
`M` are caller-provided scratch buffers in the source; the model
materialises them functionally. -/
def winograd_convolve3 (outputs : ℕ) (input U : Buf α) : Buf α :=
  let input_channels := U.size / (outputs * 16)
  let V := winograd_transform_in input input_channels
  let M := winograd_sgemm U V input_channels outputs
  winograd_transform_out M outputs

/- ### Reference convolution (spec-side definition for claim C1) -/

/-- Zero-padded read of an 8x8 feature map, the padding convention of a
3x3 convolution with zero padding on the board (spec section 8,
invariant 4). -/
def paddedIn (inp : ℕ → α) (c : ℕ) (r f : ℤ) : α :=
  if 0 ≤ r ∧ 0 ≤ f ∧ r < 8 ∧ f < 8 then
    inp (c * 64 + r.toNat * 8 + f.toNat)
  else 0

/-- Spec-side reference for claim C1: the naive `im2col`-based 3x3
convolution with stride 1 and zero padding on the 8x8 grid, written
directly from the spec's words ("Winograd convolution equals naive
im2col 3x3 convolution"): output pixel `(k, y, x)` is
`Σ_{c,i,j} f[k,c,i,j] · input[c, y+i-1, x+j-1]` with zero padding. -/
def conv3x3_ref (f inp : Buf α) (K C : ℕ) : Buf α :=
  ⟨K * 64, fun idx =>
    let k := idx / 64
    let y := (idx % 64) / 8
    let x := idx % 8
    ∑ c in Finset.range C, ∑ i in Finset.range 3, ∑ j in Finset.range 3,
      f.data (k * (C * 9) + c * 9 + i * 3 + j) *
        paddedIn inp.data c ((y : ℤ) + i - 1) ((x : ℤ) + j - 1)⟩

theorem inTile_eq_paddedIn (inp : ℕ → α) (ch b_y b_x i j : ℕ) :
    inTile inp ch b_y b_x i j
      = paddedIn inp ch (2 * (b_y : ℤ) - 1 + i) (2 * (b_x : ℤ) - 1 + j) := by
  rfl

/- ### Index lemmas: reading back what the Winograd loops wrote -/

theorem transform_f_data_at (f : Buf α) (K C xi nu c o : ℕ)
    (ho : o < K) (hc : c < C) (hnu : nu < 4) :
    (winograd_transform_f f K C).data ((xi * 4 + nu) * (K * C) + c * K + o)
      = wtfEntry (filt f.data C o c) xi nu := by
  have hK : 0 < K := lt_of_le_of_lt (Nat.zero_le o) ho
  have e1 : (xi * 4 + nu) * (K * C) + c * K + o = ((xi * 4 + nu) * C + c) * K + o := by
    ring
  have e2 : (xi * 4 + nu) * (K * C) + c * K + o = (xi * 4 + nu) * (K * C) + (c * K + o) := by
    ring
  have hco : c * K + o < K * C := by
    calc c * K + o < (c + 1) * K := by
          rw [add_mul, one_mul]; exact Nat.add_lt_add_left ho _
      _ ≤ C * K := Nat.mul_le_mul_right _ hc
      _ = K * C := mul_comm _ _
  have e3 : (xi * 4 + nu) * (K * C) + c * K + o
      = xi * (4 * (K * C)) + (nu * (K * C) + (c * K + o)) := by ring
  have hrem : nu * (K * C) + (c * K + o) < 4 * (K * C) := by
    calc nu * (K * C) + (c * K + o) < nu * (K * C) + K * C := Nat.add_lt_add_left hco _
      _ = (nu + 1) * (K * C) := by ring
      _ ≤ 4 * (K * C) := Nat.mul_le_mul_right _ hnu
  simp only [winograd_transform_f]
  rw [e1, mixed_mod _ _ _ ho, mixed_div _ _ _ ho, mixed_mod _ _ _ hc, ← e1]
  rw [e2, mixed_div _ _ _ hco, mixed_mod _ _ _ hnu, ← e2]
  rw [(by ring : 4 * K * C = 4 * (K * C)), e3, mixed_div _ _ _ hrem]

theorem transform_in_data_at (inp : Buf α) (C xi nu ch b_y b_x : ℕ)
    (hch : ch < C) (hby : b_y < 4) (hbx : b_x < 4) (hnu : nu < 4) :
    (winograd_transform_in inp C).data
        ((xi * 4 + nu) * (C * 16) + ch * 16 + (b_y * 4 + b_x))
      = wT2 (inTile inp.data ch b_y b_x) xi nu := by
  have hb : b_y * 4 + b_x < 16 := by omega
  have e1 : (xi * 4 + nu) * (C * 16) + ch * 16 + (b_y * 4 + b_x)
      = ((xi * 4 + nu) * C + ch) * 16 + (b_y * 4 + b_x) := by ring
  simp only [winograd_transform_in]
  rw [e1, mixed_mod _ _ _ hb, mixed_div _ _ _ hb, mixed_mod _ _ _ hch, ← e1]
  rw [(by rw [e1] : (xi * 4 + nu) * (C * 16) + ch * 16 + (b_y * 4 + b_x)
        = ((xi * 4 + nu) * C + ch) * 16 + (b_y * 4 + b_x)),
      ← Nat.div_div_eq_div_mul, mixed_div _ _ _ hb, mixed_div _ _ _ hch,
      mixed_div _ _ _ hnu, mixed_mod _ _ _ hnu, mixed_div _ _ _ hbx,
      mixed_mod _ _ _ hbx]

theorem sgemm_data_at (U V : Buf α) (C K xi nu k b : ℕ)
    (hk : k < K) (hb : b < 16) (hnu : nu < 4) :
    (winograd_sgemm U V C K).data (xi * (4 * K * 16) + nu * (K * 16) + k * 16 + b)
      = ∑ c in Finset.range C,
          U.data ((xi * 4 + nu) * (K * C) + c * K + k) *
            V.data ((xi * 4 + nu) * (C * 16) + c * 16 + b) := by
  have e1 : xi * (4 * K * 16) + nu * (K * 16) + k * 16 + b
      = ((xi * 4 + nu) * K + k) * 16 + b := by ring
  simp only [winograd_sgemm]
  rw [e1, mixed_mod _ _ _ hb, mixed_div _ _ _ hb, mixed_mod _ _ _ hk, ← e1]
  rw [(by rw [e1] : xi * (4 * K * 16) + nu * (K * 16) + k * 16 + b
        = ((xi * 4 + nu) * K + k) * 16 + b),
      ← Nat.div_div_eq_div_mul, mixed_div _ _ _ hb, mixed_div _ _ _ hk]

/- ### The F(2x2, 3x3) algebraic identities, one per output pixel parity -/

theorem winograd_core_00 (g d : ℕ → ℕ → α) :
    wtfEntry g 0 0 * wT2 d 0 0 + wtfEntry g 0 1 * wT2 d 0 1 + wtfEntry g 0 2 * wT2 d 0 2 +
    wtfEntry g 1 0 * wT2 d 1 0 + wtfEntry g 1 1 * wT2 d 1 1 + wtfEntry g 1 2 * wT2 d 1 2 +
    wtfEntry g 2 0 * wT2 d 2 0 + wtfEntry g 2 1 * wT2 d 2 1 + wtfEntry g 2 2 * wT2 d 2 2
      = ∑ i in Finset.range 3, ∑ j in Finset.range 3, g i j * d i j := by
  simp only [wtfEntry, wT2, wT1, Finset.sum_range_succ, Finset.sum_range_zero]
  norm_num [Gf]
  ring

theorem winograd_core_01 (g d : ℕ → ℕ → α) :
    wtfEntry g 0 1 * wT2 d 0 1 - wtfEntry g 0 2 * wT2 d 0 2 - wtfEntry g 0 3 * wT2 d 0 3 +
    wtfEntry g 1 1 * wT2 d 1 1 - wtfEntry g 1 2 * wT2 d 1 2 - wtfEntry g 1 3 * wT2 d 1 3 +
    wtfEntry g 2 1 * wT2 d 2 1 - wtfEntry g 2 2 * wT2 d 2 2 - wtfEntry g 2 3 * wT2 d 2 3
      = ∑ i in Finset.range 3, ∑ j in Finset.range 3, g i j * d i (j + 1) := by
  simp only [wtfEntry, wT2, wT1, Finset.sum_range_succ, Finset.sum_range_zero]
  norm_num [Gf]
  ring

theorem winograd_core_10 (g d : ℕ → ℕ → α) :
    wtfEntry g 1 0 * wT2 d 1 0 + wtfEntry g 1 1 * wT2 d 1 1 + wtfEntry g 1 2 * wT2 d 1 2 -
    wtfEntry g 2 0 * wT2 d 2 0 - wtfEntry g 2 1 * wT2 d 2 1 - wtfEntry g 2 2 * wT2 d 2 2 -
    wtfEntry g 3 0 * wT2 d 3 0 - wtfEntry g 3 1 * wT2 d 3 1 - wtfEntry g 3 2 * wT2 d 3 2
      = ∑ i in Finset.range 3, ∑ j in Finset.range 3, g i j * d (i + 1) j := by
  simp only [wtfEntry, wT2, wT1, Finset.sum_range_succ, Finset.sum_range_zero]
  norm_num [Gf]
  ring

theorem winograd_core_11 (g d : ℕ → ℕ → α) :
    wtfEntry g 1 1 * wT2 d 1 1 - wtfEntry g 1 2 * wT2 d 1 2 - wtfEntry g 1 3 * wT2 d 1 3 -
    wtfEntry g 2 1 * wT2 d 2 1 + wtfEntry g 2 2 * wT2 d 2 2 + wtfEntry g 2 3 * wT2 d 2 3 -
    wtfEntry g 3 1 * wT2 d 3 1 + wtfEntry g 3 2 * wT2 d 3 2 + wtfEntry g 3 3 * wT2 d 3 3
      = ∑ i in Finset.range 3, ∑ j in Finset.range 3, g i j * d (i + 1) (j + 1) := by
  simp only [wtfEntry, wT2, wT1, Finset.sum_range_succ, Finset.sum_range_zero]
  norm_num [Gf]
  ring

/-- The batched-GEMM output entry read by the output transform, rewritten
as the per-channel sum of transformed filter times transformed tile. -/
theorem Mentry_eq (f inp : Buf α) (K C xi nu k b_y b_x : ℕ)
    (hk : k < K) (hby : b_y < 4) (hbx : b_x < 4) (hnu : nu < 4) :
    (winograd_sgemm (winograd_transform_f f K C) (winograd_transform_in inp C) C K).data
        (xi * (4 * K * 16) + nu * (K * 16) + k * 16 + (b_y * 4 + b_x))
      = ∑ c in Finset.range C,
          wtfEntry (filt f.data C k c) xi nu *
            wT2 (inTile inp.data c b_y b_x) xi nu := by
  rw [sgemm_data_at _ _ _ _ _ _ _ _ hk (by omega) hnu]
  refine Finset.sum_congr rfl fun c hc => ?_
  rw [transform_f_data_at _ _ _ _ _ _ _ hk (Finset.mem_range.mp hc) hnu,
      transform_in_data_at _ _ _ _ _ _ _ (Finset.mem_range.mp hc) hby hbx hnu]

/-- Claim C1.  For every output-channel count `K`, every filter tensor
pre-transformed by `winograd_transform_f`, and every dense `C x 8x8`
input, `winograd_convolve3` computes exactly the same feature map as
the naive `im2col`-based 3x3 convolution with stride 1 and zero
padding on the 8x8 grid (`conv3x3_ref`).  Over exact arithmetic the
two agree with relative error `0`, hence in particular within the
claimed `10⁻⁴` relative error. -/
theorem winograd_convolve3_eq_conv3x3 (f inp : Buf α) (K C k y x : ℕ)
    (hK : 0 < K) (hk : k < K) (hy : y < 8) (hx : x < 8) :
    (winograd_convolve3 K inp (winograd_transform_f f K C)).data (k * 64 + y * 8 + x)
      = (conv3x3_ref f inp K C).data (k * 64 + y * 8 + x) := by
  have hsize : (winograd_transform_f f K C).size / (K * 16) = C := by
    show 16 * K * C / (K * 16) = C
    rw [(by ring : 16 * K * C = K * 16 * C)]
    exact Nat.mul_div_cancel_left C (by positivity)
  have h1 : (k * 64 + y * 8 + x) / 64 = k := by omega
  have h2 : (k * 64 + y * 8 + x) % 64 / 8 = y := by omega
  have h3 : (k * 64 + y * 8 + x) % 8 = x := by omega
  simp only [winograd_convolve3, hsize, winograd_transform_out, conv3x3_ref, h1, h2, h3]
  have hy2 : y % 2 = 0 ∨ y % 2 = 1 := by omega
  have hx2 : x % 2 = 0 ∨ x % 2 = 1 := by omega
  have hby : y / 2 < 4 := by omega
  have hbx : x / 2 < 4 := by omega
  rcases hy2 with hdy | hdy <;> rcases hx2 with hdx | hdx <;> simp only [hdy, hdx]
  · rw [Mentry_eq f inp K C 0 0 k (y/2) (x/2) hk hby hbx (by norm_num),
        Mentry_eq f inp K C 0 1 k (y/2) (x/2) hk hby hbx (by norm_num),
        Mentry_eq f inp K C 0 2 k (y/2) (x/2) hk hby hbx (by norm_num),
        Mentry_eq f inp K C 1 0 k (y/2) (x/2) hk hby hbx (by norm_num),
        Mentry_eq f inp K C 1 1 k (y/2) (x/2) hk hby hbx (by norm_num),
        Mentry_eq f inp K C 1 2 k (y/2) (x/2) hk hby hbx (by norm_num),
        Mentry_eq f inp K C 2 0 k (y/2) (x/2) hk hby hbx (by norm_num),
        Mentry_eq f inp K C 2 1 k (y/2) (x/2) hk hby hbx (by norm_num),
        Mentry_eq f inp K C 2 2 k (y/2) (x/2) hk hby hbx (by norm_num)]
    simp only [← Finset.sum_add_distrib]
    refine Finset.sum_congr rfl fun c hc => ?_
    rw [winograd_core_00]
    refine Finset.sum_congr rfl fun i hi => Finset.sum_congr rfl fun j hj => ?_
    have ea : 2 * ((y / 2 : ℕ) : ℤ) - 1 + (i : ℤ) = (y : ℤ) + (i : ℤ) - 1 := by omega
    have eb : 2 * ((x / 2 : ℕ) : ℤ) - 1 + (j : ℤ) = (x : ℤ) + (j : ℤ) - 1 := by omega
    rw [inTile_eq_paddedIn, ea, eb]
    rfl
  · rw [Mentry_eq f inp K C 0 1 k (y/2) (x/2) hk hby hbx (by norm_num),
        Mentry_eq f inp K C 0 2 k (y/2) (x/2) hk hby hbx (by norm_num),
        Mentry_eq f inp K C 0 3 k (y/2) (x/2) hk hby hbx (by norm_num),
        Mentry_eq f inp K C 1 1 k (y/2) (x/2) hk hby hbx (by norm_num),
        Mentry_eq f inp K C 1 2 k (y/2) (x/2) hk hby hbx (by norm_num),
        Mentry_eq f inp K C 1 3 k (y/2) (x/2) hk hby hbx (by norm_num),
        Mentry_eq f inp K C 2 1 k (y/2) (x/2) hk hby hbx (by norm_num),
        Mentry_eq f inp K C 2 2 k (y/2) (x/2) hk hby hbx (by norm_num),
        Mentry_eq f inp K C 2 3 k (y/2) (x/2) hk hby hbx (by norm_num)]
    simp only [← Finset.sum_add_distrib, ← Finset.sum_sub_distrib]
    refine Finset.sum_congr rfl fun c hc => ?_
    rw [winograd_core_01]
    refine Finset.sum_congr rfl fun i hi => Finset.sum_congr rfl fun j hj => ?_
    have ea : 2 * ((y / 2 : ℕ) : ℤ) - 1 + (i : ℤ) = (y : ℤ) + (i : ℤ) - 1 := by omega
    have eb : 2 * ((x / 2 : ℕ) : ℤ) - 1 + ((j + 1 : ℕ) : ℤ) = (x : ℤ) + (j : ℤ) - 1 := by
      omega
    rw [inTile_eq_paddedIn, ea, eb]
    rfl
  · rw [Mentry_eq f inp K C 1 0 k (y/2) (x/2) hk hby hbx (by norm_num),
        Mentry_eq f inp K C 1 1 k (y/2) (x/2) hk hby hbx (by norm_num),
        Mentry_eq f inp K C 1 2 k (y/2) (x/2) hk hby hbx (by norm_num),
        Mentry_eq f inp K C 2 0 k (y/2) (x/2) hk hby hbx (by norm_num),
        Mentry_eq f inp K C 2 1 k (y/2) (x/2) hk hby hbx (by norm_num),
        Mentry_eq f inp K C 2 2 k (y/2) (x/2) hk hby hbx (by norm_num),
        Mentry_eq f inp K C 3 0 k (y/2) (x/2) hk hby hbx (by norm_num),
        Mentry_eq f inp K C 3 1 k (y/2) (x/2) hk hby hbx (by norm_num),
        Mentry_eq f inp K C 3 2 k (y/2) (x/2) hk hby hbx (by norm_num)]
    simp only [← Finset.sum_add_distrib, ← Finset.sum_sub_distrib]
    refine Finset.sum_congr rfl fun c hc => ?_
    rw [winograd_core_10]
    refine Finset.sum_congr rfl fun i hi => Finset.sum_congr rfl fun j hj => ?_
    have ea : 2 * ((y / 2 : ℕ) : ℤ) - 1 + ((i + 1 : ℕ) : ℤ) = (y : ℤ) + (i : ℤ) - 1 := by
      omega
    have eb : 2 * ((x / 2 : ℕ) : ℤ) - 1 + (j : ℤ) = (x : ℤ) + (j : ℤ) - 1 := by omega
    rw [inTile_eq_paddedIn, ea, eb]
    rfl
  · rw [Mentry_eq f inp K C 1 1 k (y/2) (x/2) hk hby hbx (by norm_num),
        Mentry_eq f inp K C 1 2 k (y/2) (x/2) hk hby hbx (by norm_num),
        Mentry_eq f inp K C 1 3 k (y/2) (x/2) hk hby hbx (by norm_num),
        Mentry_eq f inp K C 2 1 k (y/2) (x/2) hk hby hbx (by norm_num),
        Mentry_eq f inp K C 2 2 k (y/2) (x/2) hk hby hbx (by norm_num),
        Mentry_eq f inp K C 2 3 k (y/2) (x/2) hk hby hbx (by norm_num),
        Mentry_eq f inp K C 3 1 k (y/2) (x/2) hk hby hbx (by norm_num),
        Mentry_eq f inp K C 3 2 k (y/2) (x/2) hk hby hbx (by norm_num),
        Mentry_eq f inp K C 3 3 k (y/2) (x/2) hk hby hbx (by norm_num)]
    simp only [← Finset.sum_add_distrib, ← Finset.sum_sub_distrib]
    refine Finset.sum_congr rfl fun c hc => ?_
    rw [winograd_core_11]
    refine Finset.sum_congr rfl fun i hi => Finset.sum_congr rfl fun j hj => ?_
    have ea : 2 * ((y / 2 : ℕ) : ℤ) - 1 + ((i + 1 : ℕ) : ℤ) = (y : ℤ) + (i : ℤ) - 1 := by
      omega
    have eb : 2 * ((x / 2 : ℕ) : ℤ) - 1 + ((j + 1 : ℕ) : ℤ) = (x : ℤ) + (j : ℤ) - 1 := by
      omega
    rw [inTile_eq_paddedIn, ea, eb]
    rfl

/- ### Claims C3 and C8: filter transform entry formula and zero padding -/

/-- Full mixed-radix decomposition of the flat index
`xi*(4*P*Q) + nu*(P*Q) + c*P + o` used by the `[xi, nu, c, o]` filter
layouts. -/
theorem decomp4 (P Q xi nu c o : ℕ) (ho : o < P) (hc : c < Q) (hnu : nu < 4) :
    (xi * (4 * P * Q) + nu * (P * Q) + c * P + o) % P = o
  ∧ (xi * (4 * P * Q) + nu * (P * Q) + c * P + o) / P % Q = c
  ∧ (xi * (4 * P * Q) + nu * (P * Q) + c * P + o) / (P * Q) % 4 = nu
  ∧ (xi * (4 * P * Q) + nu * (P * Q) + c * P + o) / (4 * P * Q) = xi := by
  have e1 : xi * (4 * P * Q) + nu * (P * Q) + c * P + o
      = ((xi * 4 + nu) * Q + c) * P + o := by ring
  have hco : c * P + o < P * Q := by
    calc c * P + o < (c + 1) * P := by
          rw [add_mul, one_mul]; exact Nat.add_lt_add_left ho _
      _ ≤ Q * P := Nat.mul_le_mul_right _ hc
      _ = P * Q := mul_comm _ _
  have e2 : xi * (4 * P * Q) + nu * (P * Q) + c * P + o
      = (xi * 4 + nu) * (P * Q) + (c * P + o) := by ring
  have hrem : nu * (P * Q) + (c * P + o) < 4 * (P * Q) := by
    calc nu * (P * Q) + (c * P + o) < nu * (P * Q) + P * Q := Nat.add_lt_add_left hco _
      _ = (nu + 1) * (P * Q) := by ring
      _ ≤ 4 * (P * Q) := Nat.mul_le_mul_right _ hnu
  have e3 : xi * (4 * P * Q) + nu * (P * Q) + c * P + o
      = xi * (4 * (P * Q)) + (nu * (P * Q) + (c * P + o)) := by ring
  refine ⟨?_, ?_, ?_, ?_⟩
  · rw [e1, mixed_mod _ _ _ ho]
  · rw [e1, mixed_div _ _ _ ho, mixed_mod _ _ _ hc]
  · rw [e2, mixed_div _ _ _ hco, mixed_mod _ _ _ hnu]
  · rw [e3, (by ring : 4 * P * Q = 4 * (P * Q)), mixed_div _ _ _ hrem]

/-- Spec-side matrix `G = [[1,0,0],[1/2,1/2,1/2],[1/2,-1/2,1/2],[0,0,1]]`
exactly as written in claim C3. -/
def Gspec : ℕ → ℕ → α := fun r c =>
  match r, c with
  | 0, 0 => 1    | 0, 1 => 0      | 0, 2 => 0
  | 1, 0 => 1/2  | 1, 1 => 1/2    | 1, 2 => 1/2
  | 2, 0 => 1/2  | 2, 1 => -(1/2) | 2, 2 => 1/2
  | 3, 0 => 0    | 3, 1 => 0      | 3, 2 => 1
  | _, _ => 0

/-- Spec-side reference for claim C3: entry `(xi, nu)` of `G·g·Gᵀ` for
a 3x3 filter `g`. -/
def GgGtRef (g : ℕ → ℕ → α) (xi nu : ℕ) : α :=
  ∑ a in Finset.range 3, ∑ b in Finset.range 3, Gspec xi a * g a b * Gspec nu b

/-- Claim C3.  For every filter tensor `f` of `K*C` 3x3 filters,
`winograd_transform_f f K C` puts, at flat index
`xi*(4*K*C) + nu*(K*C) + c*K + o`, entry `(xi, nu)` of `G·g·Gᵀ` where
`g` is the 3x3 filter for `(o, c)`. -/
theorem winograd_transform_f_entry (f : Buf α) (K C xi nu c o : ℕ)
    (ho : o < K) (hc : c < C) (hxi : xi < 4) (hnu : nu < 4) :
    (winograd_transform_f f K C).data (xi * (4 * K * C) + nu * (K * C) + c * K + o)
      = GgGtRef (fun i j => f.data (o * (C * 9) + c * 9 + i * 3 + j)) xi nu := by
  rw [(by ring : xi * (4 * K * C) + nu * (K * C) + c * K + o
        = (xi * 4 + nu) * (K * C) + c * K + o),
      transform_f_data_at f K C xi nu c o ho hc hnu]
  interval_cases xi <;> interval_cases nu <;>
    · simp only [wtfEntry, filt, GgGtRef, Finset.sum_range_succ, Finset.sum_range_zero]
      norm_num [Gf, Gspec]
      try ring

/-- Witness for `winograd_transform_f_entry` at `K = C = 1`,
`f = (0, 1, ..., 8)`, `(xi, nu, c, o) = (1, 2, 0, 0)`. -/
theorem winograd_transform_f_entry_witness :
    (winograd_transform_f (⟨9, fun n => (n : ℚ)⟩ : Buf ℚ) 1 1).data
        (1 * (4 * 1 * 1) + 2 * (1 * 1) + 0 * 1 + 0)
      = GgGtRef (fun i j =>
          (⟨9, fun n => (n : ℚ)⟩ : Buf ℚ).data (0 * (1 * 9) + 0 * 9 + i * 3 + j)) 1 2 :=
  winograd_transform_f_entry _ 1 1 1 2 0 0 (by decide) (by decide) (by decide) (by decide)

/-- Claim C8.  For `K ≤ K_pad` and `C ≤ C_pad`, `zeropad_U` returns a
tensor of size `16*K_pad*C_pad` whose entry at `(xi, nu, c, o)` with
`c < C`, `o < K` equals the corresponding entry of `U`, and whose
entry at every other (padded) position is `0`. -/
theorem zeropad_U_spec (U : Buf α) (K C Kp Cp : ℕ) (hK : K ≤ Kp) (hC : C ≤ Cp) :
    (zeropad_U U K C Kp Cp).size = 16 * Kp * Cp
  ∧ (∀ xi nu c o, xi < 4 → nu < 4 → c < C → o < K →
      (zeropad_U U K C Kp Cp).data (xi * (4 * Kp * Cp) + nu * (Kp * Cp) + c * Kp + o)
        = U.data (xi * (4 * K * C) + nu * (K * C) + c * K + o))
  ∧ (∀ xi nu c o, xi < 4 → nu < 4 → c < Cp → o < Kp → (C ≤ c ∨ K ≤ o) →
      (zeropad_U U K C Kp Cp).data (xi * (4 * Kp * Cp) + nu * (Kp * Cp) + c * Kp + o)
        = 0) := by
  refine ⟨rfl, ?_, ?_⟩
  · intro xi nu c o hxi hnu hc ho
    obtain ⟨d1, d2, d3, d4⟩ :=
      decomp4 Kp Cp xi nu c o (lt_of_lt_of_le ho hK) (lt_of_lt_of_le hc hC) hnu
    simp only [zeropad_U, d1, d2, d3, d4]
    rw [if_pos ⟨ho, hc, hxi⟩]
  · intro xi nu c o hxi hnu hc ho hpad
    obtain ⟨d1, d2, d3, d4⟩ := decomp4 Kp Cp xi nu c o ho hc hnu
    simp only [zeropad_U, d1, d2, d3, d4]
    rw [if_neg]
    rintro ⟨ho2, hc2, -⟩
    rcases hpad with h | h
    · exact absurd hc2 (not_lt.mpr h)
    · exact absurd ho2 (not_lt.mpr h)

/-- Witness for `zeropad_U_spec` at `K = C = 1`, `K_pad = C_pad = 2`,
`U = (0, 1, 2, ...)`. -/
theorem zeropad_U_spec_witness :
    (zeropad_U (⟨16, fun n => (n : ℚ)⟩ : Buf ℚ) 1 1 2 2).size = 16 * 2 * 2
  ∧ (∀ xi nu c o, xi < 4 → nu < 4 → c < 1 → o < 1 →
      (zeropad_U (⟨16, fun n => (n : ℚ)⟩ : Buf ℚ) 1 1 2 2).data
          (xi * (4 * 2 * 2) + nu * (2 * 2) + c * 2 + o)
        = (⟨16, fun n => (n : ℚ)⟩ : Buf ℚ).data
            (xi * (4 * 1 * 1) + nu * (1 * 1) + c * 1 + o))
  ∧ (∀ xi nu c o, xi < 4 → nu < 4 → c < 2 → o < 2 → (1 ≤ c ∨ 1 ≤ o) →
      (zeropad_U (⟨16, fun n => (n : ℚ)⟩ : Buf ℚ) 1 1 2 2).data
          (xi * (4 * 2 * 2) + nu * (2 * 2) + c * 2 + o) = 0) :=
  zeropad_U_spec _ 1 1 2 2 (by decide) (by decide)

/- ### Claim C5: fused batch-norm + ReLU (`batchnorm`, network_old.cpp:774) -/

/-- `batchnorm<spatial_size>(channels, data, means, stddivs, eltwise)`
from network_old.cpp:774.  The source overwrites, for every channel
`c < channels` and spatial index `b < spatial`, the element at flat
index `c*spatial + b` with `ReLU(stddivs[c]*(x - means[c]))` in the
classical branch and `ReLU(res[b] + stddivs[c]*(x - means[c]))` in the
residual branch (`lambda_ReLU v = if 0 < v then v else 0`); elements at
indices `≥ channels*spatial` are untouched.  The model recovers `c`
from the flat index. -/
def batchnorm (channels spatial : ℕ) (data : Buf α)
    (means stddivs : ℕ → α) (eltwise : Option (ℕ → α)) : Buf α :=
  ⟨data.size, fun i =>
    if i < channels * spatial then
      let mean := means (i / spatial)
      let scale_stddiv := stddivs (i / spatial)
      match eltwise with
      | none =>
        if 0 < scale_stddiv * (data.data i - mean) then
          scale_stddiv * (data.data i - mean)
        else 0
      | some res =>
        if 0 < res i + scale_stddiv * (data.data i - mean) then
          res i + scale_stddiv * (data.data i - mean)
        else 0
    else data.data i⟩

/-- Claim C5.  `batchnorm` replaces each element `x[c,b]` by
`max(0, stddivs[c]*(x[c,b] - means[c]) + eltwise[c,b])` with the
eltwise term taken to be `0` when no eltwise buffer is supplied, and
modifies no other element. -/
theorem batchnorm_spec (channels spatial : ℕ) (data : Buf α)
    (means stddivs : ℕ → α) (eltwise : Option (ℕ → α)) (c b : ℕ)
    (hc : c < channels) (hb : b < spatial) :
    (batchnorm channels spatial data means stddivs eltwise).data (c * spatial + b)
      = max 0 (stddivs c * (data.data (c * spatial + b) - means c)
               + (eltwise.getD fun _ => 0) (c * spatial + b))
  ∧ ∀ i, channels * spatial ≤ i →
      (batchnorm channels spatial data means stddivs eltwise).data i = data.data i := by
  constructor
  · have hin : c * spatial + b < channels * spatial := by
      calc c * spatial + b < (c + 1) * spatial := by
            rw [add_mul, one_mul]; exact Nat.add_lt_add_left hb _
        _ ≤ channels * spatial := Nat.mul_le_mul_right _ hc
    simp only [batchnorm, if_pos hin, mixed_div _ _ _ hb]
    rcases eltwise with _ | res
    · simp only [Option.getD_none]
      rcases lt_or_le 0 (stddivs c * (data.data (c * spatial + b) - means c)) with h | h
      · rw [if_pos h, add_zero, max_eq_right h.le]
      · rw [if_neg (not_lt.mpr h), add_zero, max_eq_left h]
    · simp only [Option.getD_some]
      rw [add_comm (res (c * spatial + b))]
      rcases lt_or_le 0 (stddivs c * (data.data (c * spatial + b) - means c)
          + res (c * spatial + b)) with h | h
      · rw [if_pos h, max_eq_right h.le]
      · rw [if_neg (not_lt.mpr h), max_eq_left h]
  · intro i hi
    simp only [batchnorm, if_neg (not_lt.mpr hi)]

/-- Witness for `batchnorm_spec`: channel 1 of a 2x4 buffer with
residual input. -/
theorem batchnorm_spec_witness :
    (batchnorm 2 4 (⟨8, fun n => (n : ℚ)⟩ : Buf ℚ) (fun c : ℕ => (c : ℚ))
        (fun c : ℕ => (c : ℚ) + 1) (some fun n : ℕ => (n : ℚ) / 2)).data (1 * 4 + 2)
      = max 0 ((fun c : ℕ => (c : ℚ) + 1) 1 *
          ((⟨8, fun n => (n : ℚ)⟩ : Buf ℚ).data (1 * 4 + 2) - (fun c : ℕ => (c : ℚ)) 1)
          + ((some fun n : ℕ => (n : ℚ) / 2).getD fun _ => 0) (1 * 4 + 2))
  ∧ ∀ i, 2 * 4 ≤ i →
      (batchnorm 2 4 (⟨8, fun n => (n : ℚ)⟩ : Buf ℚ) (fun c : ℕ => (c : ℚ))
          (fun c : ℕ => (c : ℚ) + 1) (some fun n : ℕ => (n : ℚ) / 2)).data i
        = (⟨8, fun n => (n : ℚ)⟩ : Buf ℚ).data i :=
  batchnorm_spec 2 4 _ _ _ _ 1 2 (by decide) (by decide)

/- ### Claim C10: `SearchResult` (UCTSearch.h:30) -/

/-- `SearchResult` from UCTSearch.h:35: a validity flag and an
evaluation in `[0,1]` (0 = Black win, 0.5 = draw, 1 = White win).  The
default constructor leaves the member initialisers
`m_valid{false}, m_eval{0.0f}`. -/
structure SearchResult where
  m_valid : Bool
  m_eval : ℚ

/-- The default-constructed `SearchResult()`. -/
def SearchResult.defaultCtor : SearchResult := ⟨false, 0⟩

/-- `SearchResult::valid()`. -/
def SearchResult.valid (r : SearchResult) : Bool := r.m_valid

/-- `SearchResult::eval()`. -/
def SearchResult.eval (r : SearchResult) : ℚ := r.m_eval

/-- `SearchResult::from_eval` (the private converting constructor sets
`m_valid = true`). -/
def SearchResult.from_eval (eval : ℚ) : SearchResult := ⟨true, eval⟩

/-- `SearchResult::from_score` (UCTSearch.h:43). -/
def SearchResult.from_score (board_score : ℚ) : SearchResult :=
  if 0 < board_score then SearchResult.from_eval 1
  else if board_score < 0 then SearchResult.from_eval 0
  else SearchResult.from_eval (1/2)

/-- Claim C10.  `from_score` returns a valid result whose eval is 1
for positive scores, 0 for negative scores and 0.5 for a zero score;
every such terminal value lies in `[0, 1]`; a default-constructed
`SearchResult` is invalid. -/
theorem from_score_spec (s : ℚ) :
    (SearchResult.from_score s).valid = true
  ∧ (SearchResult.from_score s).eval
      = (if 0 < s then 1 else if s < 0 then 0 else 1/2)
  ∧ 0 ≤ (SearchResult.from_score s).eval
  ∧ (SearchResult.from_score s).eval ≤ 1
  ∧ SearchResult.defaultCtor.valid = false := by
  unfold SearchResult.from_score SearchResult.from_eval SearchResult.valid
    SearchResult.eval SearchResult.defaultCtor
  split_ifs <;> norm_num

/- ### Claim C9: self-check comparator (network_old.cpp:872, 897) -/

/-- `std::numeric_limits<float>::max()`, exactly `(2 - 2⁻²³)·2¹²⁷`. -/
def fltMax : ℚ := 2 ^ 128 - 2 ^ 104

/-- `relative_difference` (network_old.cpp:872).  A float value is
modelled as `Option ℚ`, with `none` standing for NaN (the only float
special value this function inspects); `std::isnan` on either operand
returns `numeric_limits<float>::max()`.  Otherwise: if both magnitudes
exceed `1e-3` and the operands have opposite signs (both non-zero),
return the maximum; else clamp both magnitudes up to `1e-3` and return
`max(|fa-fb|/fa, |fa-fb|/fb)`. -/
def relative_difference (a b : Option ℚ) : ℚ :=
  match a, b with
  | some av, some bv =>
    let fa := |av|
    let fb := |bv|
    if fa > 1/1000 ∧ fb > 1/1000 ∧
        decide (av < 0) ≠ decide (bv < 0) ∧ av ≠ 0 ∧ bv ≠ 0 then
      fltMax
    else
      let fa2 := max fa (1/1000)
      let fb2 := max fb (1/1000)
      max |(fa2 - fb2) / fa2| |(fa2 - fb2) / fb2|
  | _, _ => fltMax

/-- `compare_net_outputs` (network_old.cpp:897), restricted to its
comparison result: the source walks `idx < data.size()`, computes
`err = relative_difference(data[idx], ref[idx])` and clears
`almost_equal` exactly when `err > relative_error` with
`relative_error = 10e-2f = 0.1` (the credit bookkeeping and printing
do not affect the returned flag). -/
def compare_net_outputs (data ref : List (Option ℚ)) : Bool :=
  (List.range data.length).all fun idx =>
    !(decide (relative_difference (data.getD idx none) (ref.getD idx none) > 1/10))

/-- The relative error exactly as worded in claim C9: clamp magnitudes
below `1e-3` up to `1e-3`; a sign flip between non-zero values is
maximal error; a NaN in either value is maximal error. -/
def claimRelError (a b : Option ℚ) : ℚ :=
  match a, b with
  | some av, some bv =>
    if decide (av < 0) ≠ decide (bv < 0) ∧ av ≠ 0 ∧ bv ≠ 0 then fltMax
    else
      let fa := max |av| (1/1000)
      let fb := max |bv| (1/1000)
      max |(fa - fb) / fa| |(fa - fb) / fb|
  | _, _ => fltMax

/-- The relative error of claim C9 as amended: the sign-flip clause
additionally requires both magnitudes to exceed `1e-3` (which is what
`relative_difference` checks before looking at the signs). -/
def claimRelErrorAmended (a b : Option ℚ) : ℚ :=
  match a, b with
  | some av, some bv =>
    if 1/1000 < |av| ∧ 1/1000 < |bv| ∧
        decide (av < 0) ≠ decide (bv < 0) ∧ av ≠ 0 ∧ bv ≠ 0 then
      fltMax
    else
      let fa := max |av| (1/1000)
      let fb := max |bv| (1/1000)
      max |(fa - fb) / fa| |(fa - fb) / fb|
  | _, _ => fltMax

theorem relative_difference_eq_amended (a b : Option ℚ) :
    relative_difference a b = claimRelErrorAmended a b := by
  rcases a with _ | av <;> rcases b with _ | bv <;> rfl

/-- Counterexample to claim C9 as stated: at the pair
`(10⁻⁴, -10⁻⁴)` the comparator does not flag a mismatch (both values
clamp to `10⁻³`, giving error 0), while the claim's relative error is
maximal (a sign flip between non-zero values) and thus exceeds 0.1. -/
theorem compare_net_outputs_claim_counterexample :
    compare_net_outputs [some (1/10000)] [some (-(1/10000))] = true
  ∧ claimRelError (some (1/10000)) (some (-(1/10000))) > 1/10 := by
  have ha : |(1/10000 : ℚ)| = 1/10000 := abs_of_pos (by norm_num)
  have hb : |(-(1/10000) : ℚ)| = 1/10000 := by rw [abs_neg]; exact ha
  have hm : max (1/10000 : ℚ) (1/1000) = 1/1000 := max_eq_right (by norm_num)
  constructor
  · have hr1 : List.range ([some (1/10000 : ℚ)] : List (Option ℚ)).length = [0] := rfl
    simp only [compare_net_outputs, hr1, List.all_cons, List.all_nil,
      List.getD_cons_zero, relative_difference, ha, hb]
    rw [if_neg (by rintro ⟨h1, -⟩; norm_num at h1)]
    rw [hm]
    norm_num
  · simp only [claimRelError]
    rw [if_pos ⟨by rw [decide_eq_false (by norm_num : ¬((1/10000 : ℚ) < 0)),
            decide_eq_true (by norm_num : (-(1/10000) : ℚ) < 0)]; simp,
          by norm_num, by norm_num⟩]
    unfold fltMax
    norm_num

/-- Claim C9 as amended.  For equal-length output vectors, the
comparator reports a mismatch (returns `false`) exactly when some
element's relative error — computed after clamping magnitudes below
`10⁻³` up to `10⁻³`, with a sign flip between non-zero values *whose
magnitudes both exceed `10⁻³`* reported as maximal error, and a NaN in
either value reported as maximal error — exceeds 0.1. -/
theorem compare_net_outputs_spec (data ref : List (Option ℚ))
    (h : data.length = ref.length) :
    compare_net_outputs data ref = false
      ↔ ∃ idx < data.length,
          1/10 < claimRelErrorAmended (data.getD idx none) (ref.getD idx none) := by
  have key : compare_net_outputs data ref = true
      ↔ ∀ i < data.length,
          claimRelErrorAmended (data.getD i none) (ref.getD i none) ≤ 1/10 := by
    unfold compare_net_outputs
    simp only [List.all_eq_true, List.mem_range, Bool.not_eq_true', decide_eq_false_iff_not,
      not_lt, relative_difference_eq_amended]
  constructor
  · intro hfail
    by_contra hall
    push_neg at hall
    have : compare_net_outputs data ref = true := key.mpr hall
    rw [this] at hfail
    cases hfail
  · rintro ⟨i, hi, herr⟩
    cases hcb : compare_net_outputs data ref
    · rfl
    · exact absurd herr (not_lt.mpr (key.mp hcb i hi))

/-- Witness for `compare_net_outputs_spec` on the pair `([1], [2])`,
whose relative error `1/2` exceeds 0.1. -/
theorem compare_net_outputs_spec_witness :
    compare_net_outputs [some 1] [some 2] = false
      ↔ ∃ idx < ([some (1:ℚ)] : List (Option ℚ)).length,
          1/10 < claimRelErrorAmended (([some (1:ℚ)] : List (Option ℚ)).getD idx none)
            (([some (2:ℚ)] : List (Option ℚ)).getD idx none) :=
  compare_net_outputs_spec [some 1] [some 2] (by decide)

/- ### Claim C4: `NetworkOld::softmax` (network_old.cpp:938) -/

/-- The running maximum of `f 0, ..., f k`: the value of
`*std::max_element(begin(input), begin(input) + (k+1))`. -/
def runningMax (f : ℕ → ℝ) : ℕ → ℝ
  | 0 => f 0
  | n + 1 => max (runningMax f n) (f (n + 1))

theorem runningMax_shift (f : ℕ → ℝ) (t : ℝ) (k : ℕ) :
    runningMax (fun i => f i + t) k = runningMax f k + t := by
  induction k with
  | zero => rfl
  | succ n ih => simp only [runningMax, ih, max_add_add_right]

/-- `NetworkOld::softmax` (network_old.cpp:938).  The source takes
`alpha = max(input[0..n)) / T` (`n = output.size()`), writes
`helper[i] = exp(input[i]/T - alpha)`, accumulates `denom` and divides.
The model returns the output vector of size `n`; it is meaningful for
`0 < n ≤ input.size` (the source dereferences the max over the first
`n` elements, which is empty when `n = 0`).  The output buffer is
distinct from the input by construction, which models the source's
non-aliasing precondition `assert(&input != &output)`. -/
noncomputable def softmax (input : Buf ℝ) (n : ℕ) (temperature : ℝ) : Buf ℝ :=
  ⟨n, fun i =>
    let alpha := runningMax input.data (n - 1) / temperature
    Real.exp (input.data i / temperature - alpha)
      / ∑ j in Finset.range n, Real.exp (input.data j / temperature - alpha)⟩

/-- Claim C4.  For a non-empty input, an output of positive length not
exceeding the input's, and temperature 1: every softmax output entry
is non-negative, the entries sum to 1, and adding one constant to
every input element leaves the output unchanged. -/
theorem softmax_spec (input : Buf ℝ) (n : ℕ) (hn : 0 < n) (hlen : n ≤ input.size) :
    (∀ i, 0 ≤ (softmax input n 1).data i)
  ∧ (∑ i in Finset.range n, (softmax input n 1).data i = 1)
  ∧ ∀ t : ℝ, softmax ⟨input.size, fun i => input.data i + t⟩ n 1 = softmax input n 1 := by
  have hden : (0:ℝ) < ∑ j in Finset.range n,
      Real.exp (input.data j / 1 - runningMax input.data (n - 1) / 1) :=
    Finset.sum_pos (fun j _ => Real.exp_pos _)
      (Finset.nonempty_range_iff.mpr (Nat.pos_iff_ne_zero.mp hn))
  refine ⟨?_, ?_, ?_⟩
  · intro i
    exact div_nonneg (Real.exp_pos _).le hden.le
  · simp only [softmax]
    rw [← Finset.sum_div, div_self hden.ne']
  · intro t
    simp only [softmax]
    refine congrArg (Buf.mk n) ?_
    funext i
    simp only [div_one, runningMax_shift, add_sub_add_right_eq_sub]

/-- Witness for `softmax_spec` at the constant-zero input of length 2. -/
theorem softmax_spec_witness :
    (∀ i, 0 ≤ (softmax (⟨2, fun _ => 0⟩ : Buf ℝ) 2 1).data i)
  ∧ (∑ i in Finset.range 2, (softmax (⟨2, fun _ => 0⟩ : Buf ℝ) 2 1).data i = 1)
  ∧ ∀ t : ℝ, softmax ⟨(⟨2, fun _ => (0:ℝ)⟩ : Buf ℝ).size,
        fun i => (⟨2, fun _ => (0:ℝ)⟩ : Buf ℝ).data i + t⟩ 2 1
      = softmax (⟨2, fun _ => 0⟩ : Buf ℝ) 2 1 :=
  softmax_spec (⟨2, fun _ => 0⟩ : Buf ℝ) 2 (by decide) (by decide)

/- ### Claim C2: `NetworkOld::get_scored_moves` and `forward_cpu` -/

/-- Modelled from the spec: `lczero::InputPlane` (its header is not
under src/); spec section 3: "a list of `C` sparse planes, each a
64-bit occupancy mask and a scalar value". -/
structure InputPlane where
  mask : ℕ
  value : ℝ

/-- One convolution layer of the input/residual tower as loaded:
`conv_weights[i]` (already Winograd-transformed), the size of
`conv_biases[i]` (which the forward pass uses as the output-channel
count), `batchnorm_means[i]` and `batchnorm_stddivs[i]`. -/
structure ConvLayer where
  U : Buf ℝ
  biasSize : ℕ
  bnMeans : ℕ → ℝ
  bnStddivs : ℕ → ℝ

/-- The process-wide weight state read by `forward_cpu` and
`get_scored_moves` after loading.  The numeric head constants
(`NUM_POLICY_INPUT_PLANES`, `NUM_VALUE_INPUT_PLANES`,
`NUM_VALUE_CHANNELS`) and the version-selected attributes
(`get_input_channels()`, `get_num_output_policy()`, and the selected
`ip_pol` arrays) are modelled from the spec as fields, because
`network_old.h` is not part of src/ (spec sections 3 and 4.3).  The
residual tower is stored as the input layer plus a list of layer
pairs, which is the shape the source's stride-2 loop over
`conv_weights[1..]` requires. -/
structure NetWeights where
  inputChannels : ℕ
  numPolicyInputPlanes : ℕ
  numValueInputPlanes : ℕ
  numValueChannels : ℕ
  numOutputPolicy : ℕ
  inputLayer : ConvLayer
  resLayers : List (ConvLayer × ConvLayer)
  conv_pol_w : Buf ℝ
  conv_pol_b : Buf ℝ
  bn_pol_w1 : ℕ → ℝ
  bn_pol_w2 : ℕ → ℝ
  ip_pol_w : ℕ → ℝ
  ip_pol_b : ℕ → ℝ
  conv_val_w : Buf ℝ
  conv_val_b : Buf ℝ
  bn_val_w1 : ℕ → ℝ
  bn_val_w2 : ℕ → ℝ
  ip1_val_w : ℕ → ℝ
  ip1_val_b : ℕ → ℝ
  ip2_val_w : ℕ → ℝ
  ip2_val_b : ℕ → ℝ

/-- `convolve<1>` (network_old.cpp:701).  With filter size 1,
`im2col<1>` is the identity reshape (Im2Col.h is not under src/; spec
section 4.4: "plain im2col+GEMM, filter size 1"), the GEMM computes
`output[o][b] = Σ_c weights[o*C + c] * input[c*64 + b]` and the final
loop adds `biases[o]`.  `input_channels` is recovered from
`weights.size() / (biases.size() * filter_len)` as in the source. -/
def convolve1 (outputs : ℕ) (input weights biases : Buf ℝ) : Buf ℝ :=
  let input_channels := weights.size / (biases.size * 1)
  ⟨outputs * 64, fun idx =>
    let o := idx / 64
    let b := idx % 64
    biases.data o + ∑ c in Finset.range input_channels,
      weights.data (o * input_channels + c) * input.data (c * 64 + b)⟩

/-- `innerproduct<inputs, outputs>` (network_old.cpp:746):
`cblas_sgemv` row-major times input plus bias, with ReLU applied
exactly when the compile-time condition
`outputs == NetworkOld::NUM_VALUE_CHANNELS` holds; the caller's value
of that constant is passed as `nvc`. -/
noncomputable def innerproduct (inputs outputs nvc : ℕ) (input : Buf ℝ)
    (weights biases : ℕ → ℝ) : Buf ℝ :=
  ⟨outputs, fun o =>
    let val := biases o + ∑ i in Finset.range inputs, weights (o * inputs + i) * input.data i
    if outputs = nvc then (if 0 < val then val else 0) else val⟩

/-- `NetworkOld::forward_cpu` (network_old.cpp:806): input convolution
with bn+ReLU, the residual tower (per block: conv, bn+ReLU, conv, bn
with `eltwise` = the block input), the two 1x1 head convolutions with
bn+ReLU, and the two head inner products.  Returns
`(output_pol, output_val)` — the raw policy logits and the
`NUM_VALUE_CHANNELS` first-fc value activations. -/
noncomputable def forward_cpu (w : NetWeights) (input : Buf ℝ) : Buf ℝ × Buf ℝ :=
  let conv0 := batchnorm w.inputLayer.biasSize 64
      (winograd_convolve3 w.inputLayer.biasSize input w.inputLayer.U)
      w.inputLayer.bnMeans w.inputLayer.bnStddivs none
  let tower := w.resLayers.foldl (fun acc lp =>
      let c1 := batchnorm lp.1.biasSize 64
          (winograd_convolve3 lp.1.biasSize acc lp.1.U) lp.1.bnMeans lp.1.bnStddivs none
      batchnorm lp.2.biasSize 64
          (winograd_convolve3 lp.2.biasSize c1 lp.2.U) lp.2.bnMeans lp.2.bnStddivs
          (some acc.data)) conv0
  let policy_data := batchnorm w.numPolicyInputPlanes 64
      (convolve1 w.numPolicyInputPlanes tower w.conv_pol_w w.conv_pol_b)
      w.bn_pol_w1 w.bn_pol_w2 none
  let value_data := batchnorm w.numValueInputPlanes 64
      (convolve1 w.numValueInputPlanes tower w.conv_val_w w.conv_val_b)
      w.bn_val_w1 w.bn_val_w2 none
  let output_pol := innerproduct (w.numPolicyInputPlanes * 64) w.numOutputPolicy
      w.numValueChannels policy_data w.ip_pol_w w.ip_pol_b
  let output_val := innerproduct (w.numValueInputPlanes * 64) w.numValueChannels
      w.numValueChannels value_data w.ip1_val_w w.ip1_val_b
  (output_pol, output_val)

/-- The plane-materialisation loop of `get_scored_moves`
(network_old.cpp:973): `input_data[(c*8 + r)*8 + f]` is the plane's
value where bit `r*8 + f` of its mask is set, else 0. -/
def materialize (planes : List InputPlane) : Buf ℝ :=
  ⟨planes.length * 64, fun idx =>
    let plane := planes.getD (idx / 64) ⟨0, 0⟩
    if plane.mask.testBit (idx % 64) then plane.value else 0⟩

/-- `NetworkOld::get_scored_moves` (network_old.cpp:959), in the
`USE_BLAS`-without-OpenCL configuration the source compiles
(`forward_cpu` path, no self-check): materialise the planes, run the
forward pass, apply `softmax` with `cfg_softmax_temp = 1.0` to the
policy logits, apply the second value fc (`innerproduct<NUM_VALUE_CHANNELS, 1>`)
and `tanh`.  Returns the softmaxed policy and the winrate. -/
noncomputable def get_scored_moves (w : NetWeights) (planes : List InputPlane) :
    Buf ℝ × ℝ :=
  let input_data := materialize planes
  let fwd := forward_cpu w input_data
  let softmax_data := softmax fwd.1 w.numOutputPolicy 1
  let winrate_out := innerproduct w.numValueChannels 1 w.numValueChannels fwd.2
      w.ip2_val_w w.ip2_val_b
  (softmax_data, Real.tanh (winrate_out.data 0))

theorem tanh_bounds (x : ℝ) : -1 ≤ Real.tanh x ∧ Real.tanh x ≤ 1 := by
  have hc := Real.cosh_pos x
  have h1 : Real.sinh x < Real.cosh x := Real.sinh_lt_cosh x
  have h2 : -Real.cosh x < Real.sinh x := by
    have h := Real.sinh_lt_cosh (-x)
    rw [Real.sinh_neg, Real.cosh_neg] at h
    linarith
  rw [Real.tanh_eq_sinh_div_cosh]
  constructor
  · rw [le_div_iff hc]
    linarith
  · rw [div_le_one hc]
    exact h1.le

/-- Claim C2 as amended.  For every weight state and every list of
input planes whose length equals the configured input-channel count,
`get_scored_moves` returns a policy vector of length `P_o =
get_num_output_policy()` holding the temperature-1 *softmax* of the
raw policy logits produced by the forward pass (not the raw logits
themselves), together with a scalar winrate in `[-1, 1]`. -/
theorem get_scored_moves_spec (w : NetWeights) (planes : List InputPlane)
    (hplanes : planes.length = w.inputChannels) :
    (get_scored_moves w planes).1.size = w.numOutputPolicy
  ∧ (get_scored_moves w planes).1
      = softmax (forward_cpu w (materialize planes)).1 w.numOutputPolicy 1
  ∧ -1 ≤ (get_scored_moves w planes).2
  ∧ (get_scored_moves w planes).2 ≤ 1 :=
  ⟨rfl, rfl, (tanh_bounds _).1, (tanh_bounds _).2⟩

/-- An all-zero buffer. -/
noncomputable def zeroBuf (n : ℕ) : Buf ℝ := ⟨n, fun _ => 0⟩

/-- A minimal all-zero weight state: one input convolution, no
residual blocks, two policy outputs, three value channels. -/
noncomputable def zeroNet : NetWeights where
  inputChannels := 1
  numPolicyInputPlanes := 1
  numValueInputPlanes := 1
  numValueChannels := 3
  numOutputPolicy := 2
  inputLayer := ⟨zeroBuf 16, 1, fun _ => 0, fun _ => 0⟩
  resLayers := []
  conv_pol_w := zeroBuf 1
  conv_pol_b := zeroBuf 1
  bn_pol_w1 := fun _ => 0
  bn_pol_w2 := fun _ => 0
  ip_pol_w := fun _ => 0
  ip_pol_b := fun _ => 0
  conv_val_w := zeroBuf 1
  conv_val_b := zeroBuf 1
  bn_val_w1 := fun _ => 0
  bn_val_w2 := fun _ => 0
  ip1_val_w := fun _ => 0
  ip1_val_b := fun _ => 0
  ip2_val_w := fun _ => 0
  ip2_val_b := fun _ => 0

theorem zeroNet_logits_zero (i : ℕ) :
    (forward_cpu zeroNet (materialize [⟨0, 0⟩])).1.data i = 0 := by
  simp only [forward_cpu, zeroNet, innerproduct]
  norm_num

/-- Counterexample to claim C2 as stated: on the all-zero network the
raw policy logits are all 0, but `get_scored_moves` returns
`softmax(logits)`, whose first entry is `1/2 ≠ 0` — the returned
policy vector does not contain the raw policy logits. -/
theorem get_scored_moves_not_raw_logits :
    (get_scored_moves zeroNet [⟨0, 0⟩]).1.data 0
      ≠ (forward_cpu zeroNet (materialize [⟨0, 0⟩])).1.data 0 := by
  have hrm : runningMax (forward_cpu zeroNet (materialize [⟨0, 0⟩])).1.data 1 = 0 := by
    have e : runningMax (forward_cpu zeroNet (materialize [⟨0, 0⟩])).1.data 1
        = max ((forward_cpu zeroNet (materialize [⟨0, 0⟩])).1.data 0)
            ((forward_cpu zeroNet (materialize [⟨0, 0⟩])).1.data 1) := rfl
    rw [e, zeroNet_logits_zero 0, zeroNet_logits_zero 1]
    norm_num
  have hval : (get_scored_moves zeroNet [⟨0, 0⟩]).1.data 0 = 1/2 := by
    show (softmax (forward_cpu zeroNet (materialize [⟨0, 0⟩])).1 2 1).data 0 = 1/2
    simp only [softmax]
    rw [(by norm_num : (2 : ℕ) - 1 = 1), hrm,
        Finset.sum_range_succ, Finset.sum_range_succ, Finset.sum_range_zero,
        zeroNet_logits_zero 0, zeroNet_logits_zero 1]
    norm_num [Real.exp_zero]
  rw [hval, zeroNet_logits_zero]
  norm_num

/-- Witness for `get_scored_moves_spec` on the zero network and a
single zero plane. -/
theorem get_scored_moves_spec_witness :
    (get_scored_moves zeroNet [⟨0, 0⟩]).1.size = zeroNet.numOutputPolicy
  ∧ (get_scored_moves zeroNet [⟨0, 0⟩]).1
      = softmax (forward_cpu zeroNet (materialize [⟨0, 0⟩])).1 zeroNet.numOutputPolicy 1
  ∧ -1 ≤ (get_scored_moves zeroNet [⟨0, 0⟩]).2
  ∧ (get_scored_moves zeroNet [⟨0, 0⟩]).2 ≤ 1 :=
  get_scored_moves_spec zeroNet [⟨0, 0⟩] rfl

/- ### Claims C6 and C7: `NetworkOld::load_network` (network_old.cpp:203) -/

/-- C-locale whitespace, as used by stream extraction and
`istream_iterator`. -/
def isSpaceCh (c : Char) : Bool :=
  c == ' ' || c == '\t' || c == '\n' || c == '\r'
    || c == Char.ofNat 11 || c == Char.ofNat 12

def isDigitCh (c : Char) : Bool := 48 ≤ c.toNat && c.toNat ≤ 57

def digitsVal : List Char → ℕ → ℕ
  | [], acc => acc
  | c :: cs, acc => digitsVal cs (acc * 10 + (c.toNat - 48))

/-- Modelled from the spec: `iss >> m_format_version` with
`m_format_version : size_t` is C++ standard-library stream extraction
(an external collaborator).  Its documented semantics: skip leading
whitespace, accept an optional sign and a non-empty digit prefix
(trailing characters are left unread), fail when no digit is present
or the magnitude exceeds the `unsigned long long` range, and wrap a
negated value modulo `2⁶⁴`. -/
def readVersion (l : List Char) : Option ℕ :=
  let l1 := l.dropWhile isSpaceCh
  let signAndRest : Bool × List Char :=
    match l1 with
    | '-' :: rest => (true, rest)
    | '+' :: rest => (false, rest)
    | _ => (false, l1)
  let ds := signAndRest.2.takeWhile isDigitCh
  if ds.isEmpty then none
  else
    let n := digitsVal ds 0
    if 2 ^ 64 ≤ n then none
    else if signAndRest.1 then some ((2 ^ 64 - n) % 2 ^ 64) else some n

/-- Split a line into maximal whitespace-free tokens (the behaviour of
`std::istream_iterator<std::string>`). -/
def splitTokensAux : List Char → List Char → List (List Char)
  | [], cur => if cur.isEmpty then [] else [cur.reverse]
  | c :: cs, cur =>
    if isSpaceCh c then
      if cur.isEmpty then splitTokensAux cs []
      else cur.reverse :: splitTokensAux cs []
    else splitTokensAux cs (c :: cur)

/-- `std::distance(istream_iterator<string>(iss), istream_iterator<string>())`:
the number of whitespace-separated tokens on the line. -/
def tokenCount (l : List Char) : ℕ := (splitTokensAux l []).length

/-- Modelled from the spec: one token of boost x3's `float_` grammar
(boost is an external collaborator; spec section 6: "whitespace-separated
float tokens"): optional sign, digits with an optional fraction (at
least one digit overall), and an optional exponent. -/
def parseFloatTok (l : List Char) : Option ℚ :=
  let signAndRest : ℚ × List Char :=
    match l with
    | '-' :: rest => (-1, rest)
    | '+' :: rest => (1, rest)
    | _ => (1, l)
  let ip := signAndRest.2.takeWhile isDigitCh
  let l2 := signAndRest.2.drop ip.length
  let fracAndRest : List Char × List Char :=
    match l2 with
    | '.' :: rest => (rest.takeWhile isDigitCh, rest.drop (rest.takeWhile isDigitCh).length)
    | _ => ([], l2)
  if ip.isEmpty && fracAndRest.1.isEmpty then none
  else
    let mant : ℚ := (digitsVal ip 0 : ℚ)
      + (digitsVal fracAndRest.1 0 : ℚ) / (10 : ℚ) ^ fracAndRest.1.length
    match fracAndRest.2 with
    | [] => some (signAndRest.1 * mant)
    | e :: rest =>
      if e == 'e' || e == 'E' then
        let esignAndRest : ℤ × List Char :=
          match rest with
          | '-' :: r => (-1, r)
          | '+' :: r => (1, r)
          | _ => (1, rest)
        let eds := esignAndRest.2.takeWhile isDigitCh
        if eds.isEmpty || !(esignAndRest.2.drop eds.length).isEmpty then none
        else some (signAndRest.1 * mant * (10 : ℚ) ^ (esignAndRest.1 * (digitsVal eds 0 : ℤ)))
      else none

/-- `phrase_parse(it, end, *x3::float_, x3::space, weights)` on one
line: every whitespace-separated token must parse as a float (an empty
line parses to the empty list). -/
def parseFloats (l : List Char) : Option (List ℚ) :=
  (splitTokensAux l []).mapM parseFloatTok

/-- Modelled from the spec: `MAX_FORMAT_VERSION` is declared in
network_old.h, which is not under src/; spec section 3 describes
exactly two weight-format shapes (V1 and V2), so the maximum
supported version is 2. -/
def MAX_FORMAT_VERSION : ℕ := 2

/-- The C++ narrowing conversion from `size_t` to `int` performed by
`return {channels, residual_blocks}` (`std::pair<int, int>`), modelled
as two's-complement wrap, the behaviour of the targeted platforms. -/
def toInt32 (n : ℕ) : ℤ :=
  if n % 2 ^ 32 < 2 ^ 31 then ((n % 2 ^ 32 : ℕ) : ℤ)
  else ((n % 2 ^ 32 : ℕ) : ℤ) - 2 ^ 32

/-- The result of `NetworkOld::load_network`: the returned
`std::pair<int, int>` plus, on full success, the parsed weight lines.
`loaded = none` on every rejection path. -/
structure LoadResult where
  channels : ℤ
  blocks : ℤ
  loaded : Option (List (List ℚ))

/-- `NetworkOld::load_network` (network_old.cpp:203) on the line list
of the weight stream.
* An empty stream (`getline` fails) returns `{0, 0}`.
* The first line is parsed as the `size_t` format version; a failed
  parse or a version outside `[1, MAX_FORMAT_VERSION]` returns `{0, 0}`.
* The counting pass sets `linecount` to the total number of lines
  (the version line counts as 1) and reads the token count of the
  third line of the file (`linecount == 2` when it is processed) as
  `channels`.
* `residual_blocks = linecount - (1 + 4 + 14)` is `size_t` arithmetic,
  hence computed modulo `2⁶⁴`; if it is not divisible by 8 the loader
  rejects, else it is divided by 8.
* The second pass parses every remaining line as a float list
  (rejecting on a parse failure) — the distribution of the parsed
  lines into the individual weight arrays (network_old.cpp:275-326)
  is a fixed regrouping that no claim references, so `loaded` keeps
  the parsed lines in file order. -/
def load_network (lines : List (List Char)) : LoadResult :=
  match lines with
  | [] => ⟨0, 0, none⟩
  | line0 :: rest =>
    match readVersion line0 with
    | none => ⟨0, 0, none⟩
    | some v =>
      if MAX_FORMAT_VERSION < v ∨ v < 1 then ⟨0, 0, none⟩
      else
        let linecount := 1 + rest.length
        let channels := tokenCount (rest.getD 1 [])
        let residual_blocks := (2 ^ 64 + linecount - 19) % 2 ^ 64
        if residual_blocks % 8 ≠ 0 then ⟨0, 0, none⟩
        else
          match rest.mapM parseFloats with
          | none => ⟨0, 0, none⟩
          | some ws => ⟨toInt32 channels, toInt32 (residual_blocks / 8), some ws⟩

/-- The first non-empty line of the stream, the phrase used by claim
C6. -/
def firstNonEmptyLine (lines : List (List Char)) : Option (List Char) :=
  lines.find? fun l => !l.isEmpty

theorem readVersion_nil : readVersion ([] : List Char) = none := rfl

theorem readVersion_ne_nil {l : List Char} {v : ℕ} (h : readVersion l = some v) :
    l.isEmpty = false := by
  cases l with
  | nil => exact absurd h (by rw [readVersion_nil]; exact Option.noConfusion)
  | cons c cs => rfl

/-- Claim C6.  Loading fails — `load_network` returns `{0, 0}` and
loads no weights — unless the first non-empty line parses as a format
version `v` with `1 ≤ v ≤ MAX_FORMAT_VERSION`; in particular an empty
file, a first line that does not parse as an integer, `v = 0` and
`v > MAX_FORMAT_VERSION` are all rejected. -/
theorem load_network_version_gate (lines : List (List Char))
    (h : (¬ ∃ v, (firstNonEmptyLine lines).bind readVersion = some v
            ∧ 1 ≤ v ∧ v ≤ MAX_FORMAT_VERSION)
       ∨ lines = []
       ∨ readVersion (lines.headD []) = none
       ∨ (∃ v, readVersion (lines.headD []) = some v
            ∧ (v < 1 ∨ MAX_FORMAT_VERSION < v))) :
    (load_network lines).channels = 0 ∧ (load_network lines).blocks = 0
      ∧ (load_network lines).loaded = none := by
  cases lines with
  | nil => exact ⟨rfl, rfl, rfl⟩
  | cons line0 rest =>
    cases hv : readVersion line0 with
    | none => simp only [load_network, hv]; exact ⟨trivial, trivial, trivial⟩
    | some v =>
      by_cases hrange : MAX_FORMAT_VERSION < v ∨ v < 1
      · simp only [load_network, hv, if_pos hrange]
        exact ⟨trivial, trivial, trivial⟩
      · exfalso
        push_neg at hrange
        have hfne : firstNonEmptyLine (line0 :: rest) = some line0 := by
          unfold firstNonEmptyLine
          rw [List.find?_cons_of_pos]
          rw [readVersion_ne_nil hv]
          rfl
        rcases h with h | h | h | h
        · exact h ⟨v, by rw [hfne]; exact hv, hrange.2, hrange.1⟩
        · exact List.noConfusion h
        · rw [List.headD_cons] at h; rw [h] at hv; exact Option.noConfusion hv
        · obtain ⟨v2, hv2, hbad⟩ := h
          rw [List.headD_cons, hv] at hv2
          obtain rfl : v = v2 := Option.some_injective _ hv2
          rcases hbad with hbad | hbad
          · exact absurd hrange.2 (not_le.mpr hbad)
          · exact absurd hrange.1 (not_le.mpr hbad)

/-- Witness for `load_network_version_gate` on a one-line stream whose
first line is not an integer. -/
theorem load_network_version_gate_witness :
    (load_network [['x']]).channels = 0 ∧ (load_network [['x']]).blocks = 0
      ∧ (load_network [['x']]).loaded = none :=
  load_network_version_gate [['x']] (Or.inr (Or.inr (Or.inl (by decide))))

/-- The 11-line weight file exhibiting the `size_t` underflow in the
residual-block computation: a valid version line followed by 10 float
lines. -/
def c7file : List (List Char) :=
  [['2'], ['0', '.', '0'], ['1', '.', '0'], [], [], [], [], [], [], [], []]

/-- Claim C7's failing input.  `c7file` has 11 lines, so the claimed
residual-block quantity `(11 - 1 - 4 - 14)/8 = -1` is negative and
the claim requires rejection; but the source computes
`residual_blocks = linecount - 19` in `size_t` arithmetic, which
underflows to `2⁶⁴ - 8`, passes the `% 8` check, and the loader
accepts the file: it parses and stores the weight lines and returns
the pair `{1, (2⁶⁴-8)/8 mod 2³² as int} = {1, -1} ≠ {0, 0}`. -/
theorem load_network_underflow_accepts :
    ((load_network c7file).channels, (load_network c7file).blocks) ≠ (0, 0)
  ∧ (load_network c7file).loaded ≠ none
  ∧ (load_network c7file).channels = 1
  ∧ (load_network c7file).blocks = -1
  ∧ ((c7file.length : ℤ) - 1 - 4 - 14) / 8 < 0 := by
  refine ⟨?_, ?_, ?_, ?_, ?_⟩ <;> decide

/-- Witness for `winograd_convolve3_eq_conv3x3`: one channel, the
identity-ramp filter and input, output pixel `(0, 0, 0)`. -/
theorem winograd_convolve3_eq_conv3x3_witness :
    (winograd_convolve3 1 (⟨64, fun n => (n : ℚ)⟩ : Buf ℚ)
        (winograd_transform_f (⟨9, fun n => (n : ℚ)⟩ : Buf ℚ) 1 1)).data
        (0 * 64 + 0 * 8 + 0)
      = (conv3x3_ref (⟨9, fun n => (n : ℚ)⟩ : Buf ℚ)
          (⟨64, fun n => (n : ℚ)⟩ : Buf ℚ) 1 1).data (0 * 64 + 0 * 8 + 0) :=
  winograd_convolve3_eq_conv3x3 _ _ 1 1 0 0 0
    (by decide) (by decide) (by decide) (by decide)
